import Mathlib

/-!
Shallow embedding of `src/neural_net_gradiant_descent.py` (a small numpy
neural-network script) and proofs about its specification.

Modelling conventions:
* numpy column vectors (shape `(n, 1)`) are lists of reals (`Vec`), and
  matrices are lists of row vectors (`Mat`).
* The process-wide random generator is made explicit: `np.random.randn`
  draws are supplied by index functions, and `np.random.shuffle` is a
  caller-supplied per-epoch function on lists; in-place mutation of the
  caller's list is modelled by threading the list through `train` and
  returning it in the final state.
* The only statement in `train` that can raise for shape-correct data is
  `range(0, n, mini_batch_size)`, which raises `ValueError` in Python when
  the step is zero; `train` therefore returns `Except PyErr`.
* The stubbed methods `backpropagation` and `gradient_descent` have empty
  bodies, i.e. they return Python `None` (here `Option.none`) and leave all
  attributes of `self` untouched; methods are embedded in state-passing
  style, returning the (possibly updated) network together with the value.
-/

namespace GradientDescentNet

/-- A numpy column vector, flattened to its list of entries. -/
abbrev Vec : Type := List ℝ

/-- A numpy matrix: list of rows. -/
abbrev Mat : Type := List Vec

/-- A training example `(input, target)`. -/
abbrev Sample : Type := Vec × Vec

/-- `sigmoid(x) = 1 / (1 + np.exp(-x))`. -/
noncomputable def sigmoid (x : ℝ) : ℝ := 1 / (1 + Real.exp (-x))

/-- `sigmoid_prime(x) = sigmoid(x) * (1 - sigmoid(x))`. -/
noncomputable def sigmoid_prime (x : ℝ) : ℝ := sigmoid x * (1 - sigmoid x)

/-- `initialize_weights_xavier(n_in, n_out)` from the source (the Lean name
drops the verb): `np.random.randn(n_out, n_in) * np.sqrt(1.0 / n_in)`, the
standard-normal draws being supplied by `randn i j`. -/
noncomputable def xavier_weights (n_in n_out : ℕ) (randn : ℕ → ℕ → ℝ) : Mat :=
  (List.range n_out).map fun i =>
    (List.range n_in).map fun j => randn i j * Real.sqrt (1 / (n_in : ℝ))

/-- The attributes of a `NeuralNetwork` instance, in the order `__init__`
assigns them. -/
structure NeuralNetwork where
  weights : List Mat
  biases : List Vec
  velocity_b : List Vec
  velocity_w : List Mat

/-- `NeuralNetwork.__init__(layer_sizes)`: weights are Xavier matrices for the
consecutive pairs of `zip(layer_sizes[:-1], layer_sizes[1:])`, biases are
`np.random.randn(y, 1)` draws for `layer_sizes[1:]`, and both velocity buffers
are `np.zeros` of the matching shapes.  `wR l i j` and `bR l i` supply the
standard-normal draws used for layer `l`. -/
noncomputable def NeuralNetwork.make (layer_sizes : List ℕ)
    (wR : ℕ → ℕ → ℕ → ℝ) (bR : ℕ → ℕ → ℝ) : NeuralNetwork :=
  let ws := ((layer_sizes.dropLast.zip layer_sizes.tail).enum).map
    fun p => xavier_weights p.2.1 p.2.2 (wR p.1)
  let bs := (layer_sizes.tail.enum).map
    fun p => (List.range p.2).map fun i => bR p.1 i
  ⟨ws, bs, bs.map fun b => b.map fun _ => (0 : ℝ),
    ws.map fun w => w.map fun r => r.map fun _ => (0 : ℝ)⟩

/-- One row of `np.dot(w, a)`: the dot product of a row with a column. -/
noncomputable def dotRow (r a : Vec) : ℝ := (List.zipWith (fun x y => x * y) r a).sum

/-- `np.dot(w, a)` for a matrix and a column vector. -/
noncomputable def matVec (w : Mat) (a : Vec) : Vec := w.map fun r => dotRow r a

/-- Elementwise `+` of two column vectors. -/
noncomputable def vecAdd (u v : Vec) : Vec := List.zipWith (fun x y => x + y) u v

/-- The loop of `feedforward`: for each `(b, w)` in `zip(biases, weights)`,
`z = np.dot(w, a) + b; a = sigmoid(z)`; the final `activations[-1]` is the
last value of `a`. -/
noncomputable def feedforwardAux : Vec → List (Vec × Mat) → Vec
  | a, [] => a
  | a, (b, w) :: rest => feedforwardAux ((vecAdd (matVec w a) b).map sigmoid) rest

/-- `NeuralNetwork.feedforward(a)`. -/
noncomputable def NeuralNetwork.feedforward (nn : NeuralNetwork) (a : Vec) : Vec :=
  feedforwardAux a (nn.biases.zip nn.weights)

/-- `feedforward` as a method call in state-passing style: the body contains
no assignment to any attribute of `self`, so the state component is the
unchanged receiver. -/
noncomputable def NeuralNetwork.feedforwardM (nn : NeuralNetwork) (a : Vec) :
    NeuralNetwork × Vec :=
  (nn, nn.feedforward a)

/-- `NeuralNetwork.backpropagation(x, y)`: the body is only a `@TODO`
comment, so the call performs no assignment and returns `None`.  The value
slot is typed by the docstring's promised tuple of per-layer gradients. -/
def NeuralNetwork.backpropagation (nn : NeuralNetwork) (x y : Vec) :
    NeuralNetwork × Option (List Mat × List Vec) :=
  (nn, none)

/-- `NeuralNetwork.gradient_descent(mini_batch, eta, mu=0.9)`: the body is
only a `@TODO` comment, so the call performs no assignment and returns
`None`. -/
def NeuralNetwork.gradient_descent (nn : NeuralNetwork) (mini_batch : List Sample)
    (eta mu : ℝ) : NeuralNetwork × Option Unit :=
  (nn, none)

/-- `NeuralNetwork.cost_derivative(output_activations, y)`:
`output_activations - y`, elementwise. -/
noncomputable def NeuralNetwork.cost_derivative (nn : NeuralNetwork)
    (output_activations y : Vec) : Vec :=
  List.zipWith (fun o t => o - t) output_activations y

/-- Python `range(0, n, step)` for a positive step: the `⌈n / step⌉` values
`0, step, 2·step, …` below `n`. -/
def rangeStep (n step : ℕ) : List ℕ :=
  (List.range ((n + step - 1) / step)).map fun i => i * step

/-- Python slice `l[k : k + s]`. -/
def pySlice {α : Type} (l : List α) (k s : ℕ) : List α := (l.drop k).take s

/-- The mini-batch comprehension of `train`:
`[training_data[k : k + s] for k in range(0, n, s)]`. -/
def mini_batches {α : Type} (data : List α) (n s : ℕ) : List (List α) :=
  (rangeStep n s).map fun k => pySlice data k s

/-- `np.mean` over a list of equal-shaped arrays: the mean of all entries. -/
noncomputable def npMean (l : List Vec) : ℝ :=
  (l.map fun v => v.sum).sum / (l.map fun v => (v.length : ℝ)).sum

/-- The quantity printed every 100th epoch:
`np.mean([cost_derivative(feedforward(x), y) ** 2 for x, y in training_data])`. -/
noncomputable def epochLoss (nn : NeuralNetwork) (data : List Sample) : ℝ :=
  npMean (data.map fun p => (nn.cost_derivative (nn.feedforward p.1) p.2).map fun t => t ^ 2)

/-- The one runtime error `train` can raise on shape-correct data:
`ValueError: range() arg 3 must not be zero`. -/
inductive PyErr : Type
  | valueErrorRangeZeroStep
deriving DecidableEq

/-- The mutable state threaded through `train`: the network (`self`), the
caller's `training_data` list (shuffled in place), the current
`learning_rate`, and the list of mean losses printed so far. -/
structure TrainState where
  nn : NeuralNetwork
  data : List Sample
  lr : ℝ
  log : List ℝ

/-- One iteration of the epoch loop of `train` at epoch index `j`:
shuffle the data, build the mini-batches from `range(0, n, s)` (raising
`ValueError` when `s = 0`), call `gradient_descent` on each batch (its
default momentum argument is `mu=0.9`), decay the learning rate, and log the
mean loss when `j % 100 == 0`. -/
noncomputable def trainEpoch (shuffle : ℕ → List Sample → List Sample)
    (n s : ℕ) (decay : ℝ) (j : ℕ) (st : TrainState) : Except PyErr TrainState :=
  let data := shuffle j st.data
  if s = 0 then .error .valueErrorRangeZeroStep
  else
    let nn := (mini_batches data n s).foldl
      (fun acc mb => (acc.gradient_descent mb st.lr (9 / 10)).1) st.nn
    let lr := st.lr * decay
    let log := if j % 100 = 0 then st.log ++ [epochLoss nn data] else st.log
    .ok ⟨nn, data, lr, log⟩

/-- `for j in range(epochs)`, with `e` epochs still to run and `j` the index
of the next one. -/
noncomputable def trainLoop (shuffle : ℕ → List Sample → List Sample)
    (n s : ℕ) (decay : ℝ) : ℕ → ℕ → TrainState → Except PyErr TrainState
  | 0, _, st => .ok st
  | e + 1, j, st =>
    match trainEpoch shuffle n s decay j st with
    | .error er => .error er
    | .ok st1 => trainLoop shuffle n s decay e (j + 1) st1

/-- `NeuralNetwork.train(training_data, epochs, mini_batch_size,
learning_rate, decay)`; `n = len(training_data)` is computed once before the
loop. -/
noncomputable def NeuralNetwork.train (nn : NeuralNetwork)
    (training_data : List Sample) (epochs mini_batch_size : ℕ)
    (learning_rate decay : ℝ) (shuffle : ℕ → List Sample → List Sample) :
    Except PyErr TrainState :=
  trainLoop shuffle training_data.length mini_batch_size decay epochs 0
    ⟨nn, training_data, learning_rate, []⟩

/-- The list held by the caller's `training_data` variable after `e` epochs
starting at epoch index `j`: one in-place shuffle per epoch. -/
def shuffleIter (shuffle : ℕ → List Sample → List Sample) :
    ℕ → ℕ → List Sample → List Sample
  | 0, _, d => d
  | e + 1, j, d => shuffleIter shuffle e (j + 1) (shuffle j d)

/-- The XOR training set of `main`. -/
noncomputable def xorData : List Sample :=
  [([0, 0], [0]), ([0, 1], [1]), ([1, 0], [1]), ([1, 1], [0])]

/-- A concrete `NeuralNetwork([2, 2, 1])` instance, with all standard-normal
draws taken to be `0`. -/
noncomputable def netXor : NeuralNetwork :=
  NeuralNetwork.make [2, 2, 1] (fun _ _ _ => 0) (fun _ _ => 0)

/-! ### Basic facts about the activation function -/

lemma one_add_exp_pos (x : ℝ) : 0 < 1 + Real.exp (-x) := by
  have h := Real.exp_pos (-x)
  linarith

lemma sigmoid_pos (x : ℝ) : 0 < sigmoid x := by
  unfold sigmoid
  exact div_pos one_pos (one_add_exp_pos x)

lemma sigmoid_lt_one (x : ℝ) : sigmoid x < 1 := by
  unfold sigmoid
  rw [div_lt_one (one_add_exp_pos x)]
  have h := Real.exp_pos (-x)
  linarith

/-! ### The stubbed methods and the train loop -/

lemma gradient_descent_fst (nn : NeuralNetwork) (mb : List Sample) (eta mu : ℝ) :
    (nn.gradient_descent mb eta mu).1 = nn := rfl

lemma foldl_gradient_descent (nn : NeuralNetwork) (bs : List (List Sample)) (eta : ℝ) :
    bs.foldl (fun acc mb => (acc.gradient_descent mb eta (9 / 10)).1) nn = nn := by
  induction bs generalizing nn with
  | nil => rfl
  | cons b bs ih => exact ih nn

lemma trainEpoch_ok (shuffle : ℕ → List Sample → List Sample) (n s : ℕ)
    (decay : ℝ) (j : ℕ) (st : TrainState) (hs : s ≠ 0) :
    trainEpoch shuffle n s decay j st =
      .ok ⟨st.nn, shuffle j st.data, st.lr * decay,
        if j % 100 = 0 then st.log ++ [epochLoss st.nn (shuffle j st.data)] else st.log⟩ := by
  unfold trainEpoch
  simp only [hs, if_false, foldl_gradient_descent]

lemma trainLoop_ok (shuffle : ℕ → List Sample → List Sample) (n s : ℕ)
    (decay : ℝ) (hs : s ≠ 0) :
    ∀ (e j : ℕ) (st : TrainState), ∃ lg : List ℝ,
      trainLoop shuffle n s decay e j st =
        .ok ⟨st.nn, shuffleIter shuffle e j st.data, st.lr * decay ^ e, lg⟩ := by
  intro e
  induction e with
  | zero =>
    intro j st
    exact ⟨st.log, by simp [trainLoop, shuffleIter]⟩
  | succ e ih =>
    intro j st
    obtain ⟨lg, hlg⟩ := ih (j + 1)
      ⟨st.nn, shuffle j st.data, st.lr * decay,
        if j % 100 = 0 then st.log ++ [epochLoss st.nn (shuffle j st.data)] else st.log⟩
    refine ⟨lg, ?_⟩
    have hpow : st.lr * decay ^ (e + 1) = st.lr * decay * decay ^ e := by ring
    rw [trainLoop, trainEpoch_ok shuffle n s decay j st hs, hpow]
    exact hlg

lemma shuffleIter_perm (shuffle : ℕ → List Sample → List Sample)
    (hperm : ∀ (j : ℕ) (l : List Sample), (shuffle j l).Perm l) :
    ∀ (e j : ℕ) (d : List Sample), (shuffleIter shuffle e j d).Perm d := by
  intro e
  induction e with
  | zero => intro j d; simp [shuffleIter]
  | succ e ih =>
    intro j d
    exact (ih (j + 1) (shuffle j d)).trans (hperm j d)

/-! ### The mini-batch partition -/

lemma rangeStep_zero (s : ℕ) : rangeStep 0 s = [] := by
  cases s with
  | zero => rfl
  | succ s =>
    unfold rangeStep
    rw [Nat.div_eq_of_lt (by omega), List.range_zero, List.map_nil]

lemma rangeStep_count (n s : ℕ) (hn : 0 < n) (hs : 0 < s) :
    (n + s - 1) / s = (n - s + s - 1) / s + 1 := by
  rcases le_or_lt n s with h | h
  · have h1 : n - s = 0 := Nat.sub_eq_zero_of_le h
    have h3 : n + s - 1 = n - 1 + s := by omega
    rw [h1, h3, Nat.add_div_right _ hs, Nat.div_eq_of_lt (by omega),
      Nat.div_eq_of_lt (by omega)]
  · have h3 : n + s - 1 = n - 1 + s := by omega
    have h4 : n - s + s - 1 = n - 1 := by omega
    rw [h3, h4, Nat.add_div_right _ hs]

lemma rangeStep_cons (n s : ℕ) (hn : 0 < n) (hs : 0 < s) :
    rangeStep n s = 0 :: (rangeStep (n - s) s).map fun k => k + s := by
  unfold rangeStep
  rw [rangeStep_count n s hn hs, List.range_succ_eq_map]
  simp only [List.map_cons, Nat.zero_mul, List.map_map]
  refine congrArg _ (List.map_congr_left fun i _ => ?_)
  simp [Function.comp, Nat.succ_mul]

lemma mini_batches_cons {α : Type} (data : List α) (s : ℕ)
    (hn : 0 < data.length) (hs : 0 < s) :
    mini_batches data data.length s =
      data.take s :: mini_batches (data.drop s) (data.length - s) s := by
  unfold mini_batches
  rw [rangeStep_cons data.length s hn hs]
  simp only [List.map_cons, List.map_map, List.cons.injEq]
  refine ⟨by simp [pySlice], List.map_congr_left ?_⟩
  intro k _
  simp only [Function.comp, pySlice, List.drop_drop]
  rw [Nat.add_comm]

lemma mini_batches_eq_nil_iff {α : Type} (data : List α) (n s : ℕ) (hs : 0 < s) :
    mini_batches data n s = [] ↔ n = 0 := by
  unfold mini_batches rangeStep
  rw [List.map_eq_nil_iff, List.map_eq_nil_iff, List.range_eq_nil,
    Nat.div_eq_zero_iff hs]
  omega

lemma mini_batches_join {α : Type} (s : ℕ) (hs : 0 < s) :
    ∀ (n : ℕ) (data : List α), data.length = n →
      (mini_batches data n s).flatten = data := by
  intro n
  induction n using Nat.strong_induction_on with
  | _ n ih =>
    intro data hlen
    rcases Nat.eq_zero_or_pos n with h0 | hpos
    · subst h0
      rw [List.length_eq_zero.mp hlen]
      simp [mini_batches, rangeStep_zero]
    · subst hlen
      rw [mini_batches_cons data s hpos hs, List.flatten_cons,
        ih (data.length - s) (by omega) (data.drop s) (by rw [List.length_drop]),
        List.take_append_drop]

lemma mini_batches_le {α : Type} (data : List α) (n s : ℕ) :
    ∀ b ∈ mini_batches data n s, b.length ≤ s := by
  intro b hb
  obtain ⟨k, hk, rfl⟩ := List.mem_map.mp hb
  exact List.length_take_le s _

lemma mini_batches_dropLast {α : Type} (s : ℕ) (hs : 0 < s) :
    ∀ (n : ℕ) (data : List α), data.length = n →
      ∀ b ∈ (mini_batches data n s).dropLast, b.length = s := by
  intro n
  induction n using Nat.strong_induction_on with
  | _ n ih =>
    intro data hlen b hb
    rcases Nat.eq_zero_or_pos n with h0 | hpos
    · subst h0
      rw [List.length_eq_zero.mp hlen] at hb
      simp [mini_batches, rangeStep_zero] at hb
    · subst hlen
      rw [mini_batches_cons data s hpos hs] at hb
      rcases eq_or_ne (mini_batches (data.drop s) (data.length - s) s) [] with hnil | hne
      · rw [hnil] at hb
        simp at hb
      · rw [List.dropLast_cons_of_ne_nil hne, List.mem_cons] at hb
        rcases hb with rfl | hb
        · have hle : s ≤ data.length := by
            have := (not_iff_not.mpr
              (mini_batches_eq_nil_iff (data.drop s) (data.length - s) s hs)).mp hne
            omega
          rw [List.length_take]
          omega
        · exact ih (data.length - s) (by omega) (data.drop s)
            (by rw [List.length_drop]) b hb

lemma getLastD_of_ne_nil {α : Type} (l : List α) (d d' : α) (h : l ≠ []) :
    l.getLastD d = l.getLastD d' := by
  rw [List.getLastD_eq_getLast?, List.getLastD_eq_getLast?]
  rcases hl : l.getLast? with _ | x
  · exact absurd (List.getLast?_eq_none_iff.mp hl) h
  · rfl

lemma mini_batches_getLast {α : Type} (s : ℕ) (hs : 0 < s) :
    ∀ (n : ℕ) (data : List α), data.length = n → ¬ s ∣ n →
      ((mini_batches data n s).getLastD []).length = n % s := by
  intro n
  induction n using Nat.strong_induction_on with
  | _ n ih =>
    intro data hlen hdvd
    rcases Nat.eq_zero_or_pos n with h0 | hpos
    · exact absurd (h0 ▸ dvd_zero s) hdvd
    · subst hlen
      rw [mini_batches_cons data s hpos hs]
      rcases eq_or_ne (mini_batches (data.drop s) (data.length - s) s) [] with hnil | hne
      · have h0 : data.length - s = 0 :=
          (mini_batches_eq_nil_iff (data.drop s) (data.length - s) s hs).mp hnil
        have hlt : data.length < s := by
          rcases Nat.lt_or_ge data.length s with h | h
          · exact h
          · have heq : data.length = s := by omega
            rw [heq] at hdvd
            exact absurd (dvd_refl s) hdvd
        rw [hnil, List.getLastD_cons, List.getLastD_nil, List.length_take,
          Nat.mod_eq_of_lt hlt]
        omega
      · have hle : s ≤ data.length := by
          have := (not_iff_not.mpr
            (mini_batches_eq_nil_iff (data.drop s) (data.length - s) s hs)).mp hne
          omega
        have hdvd' : ¬ s ∣ (data.length - s) := by
          intro hd
          refine hdvd ?_
          have heq : data.length = (data.length - s) + s := by omega
          rw [heq]
          exact Nat.dvd_add hd (dvd_refl s)
        rw [List.getLastD_cons,
          getLastD_of_ne_nil _ (data.take s) [] hne,
          ih (data.length - s) (by omega) (data.drop s) (by rw [List.length_drop]) hdvd',
          Nat.mod_eq_sub_mod hle]

/-! ### Shapes established by the constructor -/

/-- `m` is a `rows × cols` numpy matrix. -/
def matShape (rows cols : ℕ) (m : Mat) : Prop :=
  m.length = rows ∧ ∀ r ∈ m, r.length = cols

/-- The shape invariant of the data model: the weight matrix of layer `l`
maps activations of size `layer_sizes[l]` to size `layer_sizes[l+1]`, the
bias vector of layer `l` has size `layer_sizes[l+1]`, and the two velocity
buffers mirror those shapes. -/
def ShapeInv (ls : List ℕ) (nn : NeuralNetwork) : Prop :=
  nn.weights.length = ls.length - 1 ∧
  nn.biases.length = ls.length - 1 ∧
  nn.velocity_w.length = ls.length - 1 ∧
  nn.velocity_b.length = ls.length - 1 ∧
  ∀ l : ℕ, l < ls.length - 1 →
    matShape (ls.getD (l + 1) 0) (ls.getD l 0) (nn.weights.getD l []) ∧
    (nn.biases.getD l []).length = ls.getD (l + 1) 0 ∧
    matShape (ls.getD (l + 1) 0) (ls.getD l 0) (nn.velocity_w.getD l []) ∧
    (nn.velocity_b.getD l []).length = ls.getD (l + 1) 0

/-- Both velocity buffers are filled with zeros. -/
def VelocityZero (nn : NeuralNetwork) : Prop :=
  (∀ w ∈ nn.velocity_w, ∀ r ∈ w, ∀ t ∈ r, t = 0) ∧
  (∀ b ∈ nn.velocity_b, ∀ t ∈ b, t = 0)

lemma xavier_weights_shape (n_in n_out : ℕ) (rnd : ℕ → ℕ → ℝ) :
    matShape n_out n_in (xavier_weights n_in n_out rnd) := by
  constructor
  · simp [xavier_weights]
  · intro r hr
    obtain ⟨i, _, rfl⟩ := List.mem_map.mp hr
    simp

lemma make_weights_length (ls : List ℕ) (wR : ℕ → ℕ → ℕ → ℝ) (bR : ℕ → ℕ → ℝ) :
    (NeuralNetwork.make ls wR bR).weights.length = ls.length - 1 := by
  simp [NeuralNetwork.make, List.enum_length, List.length_zip,
    List.length_dropLast, List.length_tail]

lemma make_biases_length (ls : List ℕ) (wR : ℕ → ℕ → ℕ → ℝ) (bR : ℕ → ℕ → ℝ) :
    (NeuralNetwork.make ls wR bR).biases.length = ls.length - 1 := by
  simp [NeuralNetwork.make, List.enum_length, List.length_tail]

lemma make_velocity_w_length (ls : List ℕ) (wR : ℕ → ℕ → ℕ → ℝ) (bR : ℕ → ℕ → ℝ) :
    (NeuralNetwork.make ls wR bR).velocity_w.length = ls.length - 1 := by
  simp [NeuralNetwork.make, List.enum_length, List.length_zip,
    List.length_dropLast, List.length_tail]

lemma make_velocity_b_length (ls : List ℕ) (wR : ℕ → ℕ → ℕ → ℝ) (bR : ℕ → ℕ → ℝ) :
    (NeuralNetwork.make ls wR bR).velocity_b.length = ls.length - 1 := by
  simp [NeuralNetwork.make, List.enum_length, List.length_tail]

lemma make_weights_getD (ls : List ℕ) (wR : ℕ → ℕ → ℕ → ℝ) (bR : ℕ → ℕ → ℝ)
    (l : ℕ) (hl : l < ls.length - 1) :
    (NeuralNetwork.make ls wR bR).weights.getD l [] =
      xavier_weights (ls.getD l 0) (ls.getD (l + 1) 0) (wR l) := by
  have hw : l < (NeuralNetwork.make ls wR bR).weights.length := by
    rw [make_weights_length]; exact hl
  have hz : l < (ls.dropLast.zip ls.tail).length := by
    simp [List.length_zip, List.length_dropLast, List.length_tail]; omega
  have hd : l < ls.dropLast.length := by simp [List.length_dropLast]; omega
  have ht : l < ls.tail.length := by simp [List.length_tail]; omega
  have hls : l < ls.length := by omega
  have hls1 : l + 1 < ls.length := by omega
  rw [List.getD_eq_getElem _ _ hw]
  simp only [NeuralNetwork.make]
  rw [List.getElem_map, List.getElem_enum, List.getElem_zip,
    List.getElem_dropLast, List.getElem_tail,
    List.getD_eq_getElem _ _ hls, List.getD_eq_getElem _ _ hls1]

lemma make_biases_getD (ls : List ℕ) (wR : ℕ → ℕ → ℕ → ℝ) (bR : ℕ → ℕ → ℝ)
    (l : ℕ) (hl : l < ls.length - 1) :
    (NeuralNetwork.make ls wR bR).biases.getD l [] =
      (List.range (ls.getD (l + 1) 0)).map (bR l) := by
  have hb : l < (NeuralNetwork.make ls wR bR).biases.length := by
    rw [make_biases_length]; exact hl
  have ht : l < ls.tail.length := by simp [List.length_tail]; omega
  have hls1 : l + 1 < ls.length := by omega
  rw [List.getD_eq_getElem _ _ hb]
  simp only [NeuralNetwork.make]
  rw [List.getElem_map, List.getElem_enum, List.getElem_tail,
    List.getD_eq_getElem _ _ hls1]

lemma make_velocity_w_getD (ls : List ℕ) (wR : ℕ → ℕ → ℕ → ℝ) (bR : ℕ → ℕ → ℝ)
    (l : ℕ) (hl : l < ls.length - 1) :
    (NeuralNetwork.make ls wR bR).velocity_w.getD l [] =
      ((NeuralNetwork.make ls wR bR).weights.getD l []).map
        fun r => r.map fun _ => (0 : ℝ) := by
  have hw : l < (NeuralNetwork.make ls wR bR).weights.length := by
    rw [make_weights_length]; exact hl
  have hv : l < (NeuralNetwork.make ls wR bR).velocity_w.length := by
    rw [make_velocity_w_length]; exact hl
  rw [List.getD_eq_getElem _ _ hv, List.getD_eq_getElem _ _ hw]
  simp only [NeuralNetwork.make]
  rw [List.getElem_map]

lemma make_velocity_b_getD (ls : List ℕ) (wR : ℕ → ℕ → ℕ → ℝ) (bR : ℕ → ℕ → ℝ)
    (l : ℕ) (hl : l < ls.length - 1) :
    (NeuralNetwork.make ls wR bR).velocity_b.getD l [] =
      ((NeuralNetwork.make ls wR bR).biases.getD l []).map
        fun _ => (0 : ℝ) := by
  have hb : l < (NeuralNetwork.make ls wR bR).biases.length := by
    rw [make_biases_length]; exact hl
  have hv : l < (NeuralNetwork.make ls wR bR).velocity_b.length := by
    rw [make_velocity_b_length]; exact hl
  rw [List.getD_eq_getElem _ _ hv, List.getD_eq_getElem _ _ hb]
  simp only [NeuralNetwork.make]
  rw [List.getElem_map]

lemma make_ShapeInv (ls : List ℕ) (wR : ℕ → ℕ → ℕ → ℝ) (bR : ℕ → ℕ → ℝ) :
    ShapeInv ls (NeuralNetwork.make ls wR bR) := by
  refine ⟨make_weights_length ls wR bR, make_biases_length ls wR bR,
    make_velocity_w_length ls wR bR, make_velocity_b_length ls wR bR, ?_⟩
  intro l hl
  have hwshape : matShape (ls.getD (l + 1) 0) (ls.getD l 0)
      ((NeuralNetwork.make ls wR bR).weights.getD l []) := by
    rw [make_weights_getD ls wR bR l hl]
    exact xavier_weights_shape _ _ _
  refine ⟨hwshape, ?_, ?_, ?_⟩
  · rw [make_biases_getD ls wR bR l hl]
    simp
  · rw [make_velocity_w_getD ls wR bR l hl]
    constructor
    · rw [List.length_map]
      exact hwshape.1
    · intro r hr
      obtain ⟨r0, hr0, rfl⟩ := List.mem_map.mp hr
      rw [List.length_map]
      exact hwshape.2 r0 hr0
  · rw [make_velocity_b_getD ls wR bR l hl, List.length_map,
      make_biases_getD ls wR bR l hl]
    simp

lemma make_VelocityZero (ls : List ℕ) (wR : ℕ → ℕ → ℕ → ℝ) (bR : ℕ → ℕ → ℝ) :
    VelocityZero (NeuralNetwork.make ls wR bR) := by
  constructor
  · intro w hw r hr t ht
    obtain ⟨w0, _, rfl⟩ := List.mem_map.mp hw
    obtain ⟨r0, _, rfl⟩ := List.mem_map.mp hr
    obtain ⟨t0, _, rfl⟩ := List.mem_map.mp ht
    rfl
  · intro b hb t ht
    obtain ⟨b0, _, rfl⟩ := List.mem_map.mp hb
    obtain ⟨t0, _, rfl⟩ := List.mem_map.mp ht
    rfl

lemma trainEpoch_nn (shuffle : ℕ → List Sample → List Sample) (n s : ℕ)
    (decay : ℝ) (j : ℕ) (st st1 : TrainState)
    (h : trainEpoch shuffle n s decay j st = .ok st1) : st1.nn = st.nn := by
  unfold trainEpoch at h
  rcases eq_or_ne s 0 with hs | hs
  · simp [hs] at h
  · simp only [hs, if_false, if_neg hs, foldl_gradient_descent, Except.ok.injEq] at h
    rw [← h]

lemma trainLoop_nn (shuffle : ℕ → List Sample → List Sample) (n s : ℕ)
    (decay : ℝ) :
    ∀ (e j : ℕ) (st st' : TrainState),
      trainLoop shuffle n s decay e j st = .ok st' → st'.nn = st.nn := by
  intro e
  induction e with
  | zero =>
    intro j st st' h
    rw [trainLoop] at h
    cases h
    rfl
  | succ e ih =>
    intro j st st' h
    rw [trainLoop] at h
    rcases heq : trainEpoch shuffle n s decay j st with er | st1
    · rw [heq] at h
      cases h
    · rw [heq] at h
      exact (ih (j + 1) st1 st' h).trans (trainEpoch_nn _ _ _ _ _ _ _ heq)

/-! ### The forward pass -/

lemma feedforwardAux_concat_length (b : Vec) (w : Mat) :
    ∀ (pairs : List (Vec × Mat)) (a : Vec),
      (feedforwardAux a (pairs ++ [(b, w)])).length = min w.length b.length := by
  intro pairs
  induction pairs with
  | nil =>
    intro a
    simp only [List.nil_append, feedforwardAux]
    simp [vecAdd, matVec, List.length_zipWith]
  | cons p pairs ih =>
    intro a
    cases p with
    | mk pb pw =>
      simp only [List.cons_append, feedforwardAux]
      exact ih _

lemma feedforwardAux_concat_mem (b : Vec) (w : Mat) :
    ∀ (pairs : List (Vec × Mat)) (a : Vec) (t : ℝ),
      t ∈ feedforwardAux a (pairs ++ [(b, w)]) → ∃ z : ℝ, t = sigmoid z := by
  intro pairs
  induction pairs with
  | nil =>
    intro a t ht
    simp only [List.nil_append, feedforwardAux] at ht
    obtain ⟨z, _, rfl⟩ := List.mem_map.mp ht
    exact ⟨z, rfl⟩
  | cons p pairs ih =>
    intro a t ht
    cases p with
    | mk pb pw =>
      simp only [List.cons_append, feedforwardAux] at ht
      exact ih _ t ht

/-! ### Claim theorems -/

/-- C1, counterexample: with the exact parameters of `main` (20000 epochs,
mini-batch size 4, learning rate 0.1, decay 0.9999) on the XOR data set,
`train` returns normally — no type or attribute error surfaces, contrary to
the claim. -/
theorem C1_counterexample :
    ∃ st' : TrainState,
      netXor.train xorData 20000 4 (1 / 10) (9999 / 10000) (fun _ l => l) =
        .ok st' := by
  obtain ⟨lg, h⟩ := trainLoop_ok (fun _ l => l) xorData.length 4 (9999 / 10000)
    (by norm_num) 20000 0 ⟨netXor, xorData, 1 / 10, []⟩
  exact ⟨_, h⟩

/-- C1 (amended): the two core methods `backpropagation` and
`gradient_descent` have empty bodies, so calling them yields no result
(Python `None`); however `train` discards the return value of
`gradient_descent`, so running `train` (with a nonzero mini-batch size)
completes without surfacing any failure — a type or attribute error could
manifest only the first time such a return value were actually used. -/
theorem C1_stub_methods_return_none_and_train_completes :
    (∀ (nn : NeuralNetwork) (x y : Vec), (nn.backpropagation x y).2 = none) ∧
    (∀ (nn : NeuralNetwork) (mb : List Sample) (eta mu : ℝ),
      (nn.gradient_descent mb eta mu).2 = none) ∧
    ∀ (nn : NeuralNetwork) (data : List Sample) (epochs s : ℕ)
      (lr decay : ℝ) (shuffle : ℕ → List Sample → List Sample),
      0 < s → ∃ st' : TrainState,
        nn.train data epochs s lr decay shuffle = .ok st' := by
  refine ⟨fun _ _ _ => rfl, fun _ _ _ _ => rfl, ?_⟩
  intro nn data epochs s lr decay shuffle hs
  obtain ⟨lg, h⟩ := trainLoop_ok shuffle data.length s decay hs.ne' epochs 0
    ⟨nn, data, lr, []⟩
  exact ⟨_, h⟩

/-- C1, witness for the amended claim at a concrete input. -/
theorem C1_witness :
    ∃ st' : TrainState,
      netXor.train xorData 1 4 (1 / 10) (9999 / 10000) (fun _ l => l) =
        .ok st' :=
  C1_stub_methods_return_none_and_train_completes.2.2 netXor xorData 1 4
    (1 / 10) (9999 / 10000) (fun _ l => l) (by norm_num)

/-- C2, counterexample: the claim quantifies over every mini-batch size, but
at mini-batch size `0` (and at least one epoch) `train` raises
`ValueError: range() arg 3 must not be zero` from `range(0, n, 0)` instead of
completing. -/
theorem C2_counterexample :
    netXor.train xorData 1 0 (1 / 10) (9999 / 10000) (fun _ l => l) =
      .error PyErr.valueErrorRangeZeroStep := rfl

/-- C2 (amended): for every network, dataset, number of epochs, learning
rate, decay, and every *positive* mini-batch size, `train` completes without
error and leaves `weights`, `biases`, `velocity_w` and `velocity_b` exactly
unchanged, because `gradient_descent` has an empty body and its return value
is never used. -/
theorem C2_train_preserves_parameters (nn : NeuralNetwork) (data : List Sample)
    (epochs s : ℕ) (lr decay : ℝ) (shuffle : ℕ → List Sample → List Sample)
    (hs : 0 < s) :
    ∃ st' : TrainState,
      nn.train data epochs s lr decay shuffle = .ok st' ∧
      st'.nn.weights = nn.weights ∧ st'.nn.biases = nn.biases ∧
      st'.nn.velocity_w = nn.velocity_w ∧ st'.nn.velocity_b = nn.velocity_b := by
  obtain ⟨lg, h⟩ := trainLoop_ok shuffle data.length s decay hs.ne' epochs 0
    ⟨nn, data, lr, []⟩
  exact ⟨_, h, rfl, rfl, rfl, rfl⟩

/-- C2, witness for the amended claim at a concrete input. -/
theorem C2_witness :
    ∃ st' : TrainState,
      netXor.train xorData 3 2 (1 / 10) (9999 / 10000) (fun _ l => l) = .ok st' ∧
      st'.nn.weights = netXor.weights ∧ st'.nn.biases = netXor.biases ∧
      st'.nn.velocity_w = netXor.velocity_w ∧
      st'.nn.velocity_b = netXor.velocity_b :=
  C2_train_preserves_parameters netXor xorData 3 2 (1 / 10) (9999 / 10000)
    (fun _ l => l) (by norm_num)

/-- C3: for every network built from a valid layer-size list (at least an
input and an output layer) and every input of the declared input size,
`feedforward` returns the final layer's output: its length is the declared
output dimension (the last entry of `layer_sizes`) and every element — being
a sigmoid value — lies strictly between `0` and `1`. -/
theorem C3_feedforward_output (ls : List ℕ) (wR : ℕ → ℕ → ℕ → ℝ)
    (bR : ℕ → ℕ → ℝ) (a : Vec) (hlen : 2 ≤ ls.length)
    (hin : a.length = ls.headI) :
    ((NeuralNetwork.make ls wR bR).feedforward a).length =
      ls.getD (ls.length - 1) 0 ∧
    ∀ t ∈ (NeuralNetwork.make ls wR bR).feedforward a, 0 < t ∧ t < 1 := by
  have hbl := make_biases_length ls wR bR
  have hwl := make_weights_length ls wR bR
  have hplen : ((NeuralNetwork.make ls wR bR).biases.zip
      (NeuralNetwork.make ls wR bR).weights).length = ls.length - 1 := by
    rw [List.length_zip, hbl, hwl, min_self]
  have hne : (NeuralNetwork.make ls wR bR).biases.zip
      (NeuralNetwork.make ls wR bR).weights ≠ [] :=
    List.ne_nil_of_length_pos (by omega)
  have hil : ls.length - 2 < ls.length - 1 := by omega
  have hib : ls.length - 2 < (NeuralNetwork.make ls wR bR).biases.length := by
    omega
  have hiw : ls.length - 2 < (NeuralNetwork.make ls wR bR).weights.length := by
    omega
  have hidx : ((NeuralNetwork.make ls wR bR).biases.zip
      (NeuralNetwork.make ls wR bR).weights).length - 1 = ls.length - 2 := by
    omega
  have hlast : ((NeuralNetwork.make ls wR bR).biases.zip
        (NeuralNetwork.make ls wR bR).weights).getLast hne =
      ((NeuralNetwork.make ls wR bR).biases.getD (ls.length - 2) [],
        (NeuralNetwork.make ls wR bR).weights.getD (ls.length - 2) []) := by
    rw [List.getLast_eq_getElem, List.getD_eq_getElem _ _ hib,
      List.getD_eq_getElem _ _ hiw]
    simp only [hidx]
    exact List.getElem_zip
  have h21 : ls.length - 2 + 1 = ls.length - 1 := by omega
  have hblen : ((NeuralNetwork.make ls wR bR).biases.getD
      (ls.length - 2) []).length = ls.getD (ls.length - 1) 0 := by
    rw [make_biases_getD ls wR bR _ hil, List.length_map, List.length_range, h21]
  have hwlen : ((NeuralNetwork.make ls wR bR).weights.getD
      (ls.length - 2) []).length = ls.getD (ls.length - 1) 0 := by
    rw [make_weights_getD ls wR bR _ hil, h21]
    exact (xavier_weights_shape _ _ _).1
  have hff : (NeuralNetwork.make ls wR bR).feedforward a =
      feedforwardAux a
        (((NeuralNetwork.make ls wR bR).biases.zip
            (NeuralNetwork.make ls wR bR).weights).dropLast ++
          [((NeuralNetwork.make ls wR bR).biases.getD (ls.length - 2) [],
            (NeuralNetwork.make ls wR bR).weights.getD (ls.length - 2) [])]) := by
    rw [NeuralNetwork.feedforward, ← hlast, List.dropLast_append_getLast hne]
  constructor
  · rw [hff, feedforwardAux_concat_length, hwlen, hblen, min_self]
  · intro t ht
    rw [hff] at ht
    obtain ⟨z, rfl⟩ := feedforwardAux_concat_mem _ _ _ _ t ht
    exact ⟨sigmoid_pos z, sigmoid_lt_one z⟩

/-- C3, witness: the `[2, 2, 1]` XOR network on input `[0, 0]`. -/
theorem C3_witness :
    ((NeuralNetwork.make [2, 2, 1] (fun _ _ _ => 0) (fun _ _ => 0)).feedforward
      [0, 0]).length =
      ([2, 2, 1] : List ℕ).getD (([2, 2, 1] : List ℕ).length - 1) 0 ∧
    ∀ t ∈ (NeuralNetwork.make [2, 2, 1] (fun _ _ _ => 0)
      (fun _ _ => 0)).feedforward [0, 0], 0 < t ∧ t < 1 :=
  C3_feedforward_output [2, 2, 1] (fun _ _ _ => 0) (fun _ _ => 0) [0, 0]
    (by norm_num) rfl

/-- C6: the constructor establishes the shape invariant — layer `l`'s weight
matrix is `(layer_sizes[l+1]) × (layer_sizes[l])`, its bias vector has length
`layer_sizes[l+1]`, and the velocity buffers mirror those shapes — with both
velocity buffers zero at construction; and every operation
(`gradient_descent`, `feedforward`, `train`) preserves the invariant. -/
theorem C6_shape_invariant (ls : List ℕ) (wR : ℕ → ℕ → ℕ → ℝ)
    (bR : ℕ → ℕ → ℝ) :
    ShapeInv ls (NeuralNetwork.make ls wR bR) ∧
    VelocityZero (NeuralNetwork.make ls wR bR) ∧
    (∀ (nn : NeuralNetwork) (mb : List Sample) (eta mu : ℝ),
      ShapeInv ls nn → ShapeInv ls (nn.gradient_descent mb eta mu).1) ∧
    (∀ (nn : NeuralNetwork) (a : Vec),
      ShapeInv ls nn → ShapeInv ls (nn.feedforwardM a).1) ∧
    ∀ (nn : NeuralNetwork) (data : List Sample) (epochs s : ℕ)
      (lr decay : ℝ) (shuffle : ℕ → List Sample → List Sample)
      (st' : TrainState),
      nn.train data epochs s lr decay shuffle = .ok st' →
      ShapeInv ls nn → ShapeInv ls st'.nn := by
  refine ⟨make_ShapeInv ls wR bR, make_VelocityZero ls wR bR,
    fun nn mb eta mu h => h, fun nn a h => h, ?_⟩
  intro nn data epochs s lr decay shuffle st' htrain h
  have hnn := trainLoop_nn shuffle data.length s decay epochs 0
    ⟨nn, data, lr, []⟩ st' htrain
  rw [hnn]
  exact h

/-- C6, witness: the invariant holds for the `[2, 2, 1]` network of `main`
and is preserved by a `gradient_descent` call. -/
theorem C6_witness :
    ShapeInv [2, 2, 1]
      (NeuralNetwork.make [2, 2, 1] (fun _ _ _ => 0) (fun _ _ => 0)) ∧
    ShapeInv [2, 2, 1]
      ((NeuralNetwork.make [2, 2, 1] (fun _ _ _ => 0)
        (fun _ _ => 0)).gradient_descent [] (1 / 10) (9 / 10)).1 :=
  ⟨(C6_shape_invariant [2, 2, 1] (fun _ _ _ => 0) (fun _ _ => 0)).1,
    (C6_shape_invariant [2, 2, 1] (fun _ _ _ => 0) (fun _ _ => 0)).2.2.1 _ []
      (1 / 10) (9 / 10)
      (C6_shape_invariant [2, 2, 1] (fun _ _ _ => 0) (fun _ _ => 0)).1⟩

/-- C4: with `n` the length of the (shuffled) dataset — `train` computes
`n = len(training_data)` once, and each epoch's shuffle is a permutation —
the mini-batch comprehension of `train` splits the list into contiguous
batches whose concatenation is the list itself (every example exactly once,
no duplication), every batch has at most `s` elements, every batch except
possibly the last has exactly `s`, and when `s` does not divide `n` the last
batch holds the `n % s` leftover examples. -/
theorem C4_mini_batch_partition (data : List Sample) (n s : ℕ)
    (hn : n = data.length) (hs : 0 < s) :
    (mini_batches data n s).flatten = data ∧
    (∀ b ∈ (mini_batches data n s).dropLast, b.length = s) ∧
    (∀ b ∈ mini_batches data n s, b.length ≤ s) ∧
    (¬ s ∣ n → ((mini_batches data n s).getLastD []).length = n % s) := by
  subst hn
  exact ⟨mini_batches_join s hs data.length data rfl,
    mini_batches_dropLast s hs data.length data rfl,
    mini_batches_le data data.length s,
    mini_batches_getLast s hs data.length data rfl⟩

/-- C4, witness: the XOR dataset (4 examples) with batch size 3 — a size not
dividing the dataset — is covered exactly, and the last batch has `4 % 3 = 1`
example. -/
theorem C4_witness :
    (mini_batches xorData 4 3).flatten = xorData ∧
    ((mini_batches xorData 4 3).getLastD []).length = 4 % 3 := by
  have h := C4_mini_batch_partition xorData 4 3 rfl (by norm_num)
  exact ⟨h.1, h.2.2.2 (by decide)⟩

/-- C5: for every initial learning rate and decay factor (and positive
mini-batch size, so that `train` completes), after `n` epochs the learning
rate held by `train` equals `initial_rate * decay ^ n` — one multiplicative
decay per epoch. -/
theorem C5_learning_rate_decay (nn : NeuralNetwork) (data : List Sample)
    (n s : ℕ) (lr decay : ℝ) (shuffle : ℕ → List Sample → List Sample)
    (hs : 0 < s) :
    ∃ st' : TrainState,
      nn.train data n s lr decay shuffle = .ok st' ∧
      st'.lr = lr * decay ^ n := by
  obtain ⟨lg, h⟩ := trainLoop_ok shuffle data.length s decay hs.ne' n 0
    ⟨nn, data, lr, []⟩
  exact ⟨_, h, rfl⟩

/-- C5, witness at a concrete input. -/
theorem C5_witness :
    ∃ st' : TrainState,
      netXor.train xorData 5 4 (1 / 10) (9999 / 10000) (fun _ l => l) = .ok st' ∧
      st'.lr = 1 / 10 * (9999 / 10000) ^ 5 :=
  C5_learning_rate_decay netXor xorData 5 4 (1 / 10) (9999 / 10000)
    (fun _ l => l) (by norm_num)

/-- C7: `sigmoid` is a pure function mapping every real into the open
interval `(0, 1)`, and `sigmoid_prime x = sigmoid x * (1 - sigmoid x)` for
every real `x`. -/
theorem C7_sigmoid_range_and_derivative :
    (∀ x : ℝ, 0 < sigmoid x ∧ sigmoid x < 1) ∧
    ∀ x : ℝ, sigmoid_prime x = sigmoid x * (1 - sigmoid x) :=
  ⟨fun x => ⟨sigmoid_pos x, sigmoid_lt_one x⟩, fun _ => rfl⟩

/-- C8: for vectors of the same length, `cost_derivative` returns their
elementwise difference — the result has the length of the inputs and its
`i`-th entry is `output_activations[i] - y[i]`. -/
theorem C8_cost_derivative (nn : NeuralNetwork) (output_activations y : Vec)
    (h : output_activations.length = y.length) :
    (nn.cost_derivative output_activations y).length = output_activations.length ∧
    ∀ i : ℕ, i < output_activations.length →
      (nn.cost_derivative output_activations y).getD i 0 =
        output_activations.getD i 0 - y.getD i 0 := by
  constructor
  · unfold NeuralNetwork.cost_derivative
    rw [List.length_zipWith, ← h, min_self]
  · intro i hi
    have hi' : i < y.length := h ▸ hi
    have hiz : i < (nn.cost_derivative output_activations y).length := by
      unfold NeuralNetwork.cost_derivative
      rw [List.length_zipWith]
      omega
    rw [List.getD_eq_getElem _ _ hiz, List.getD_eq_getElem _ _ hi,
      List.getD_eq_getElem _ _ hi']
    exact List.getElem_zipWith

/-- C8, witness at a concrete input. -/
theorem C8_witness :
    ((NeuralNetwork.make [] (fun _ _ _ => 0) (fun _ _ => 0)).cost_derivative
      [1, 2] [3, 5]).length = 2 ∧
    ((NeuralNetwork.make [] (fun _ _ _ => 0) (fun _ _ => 0)).cost_derivative
      [1, 2] [3, 5]).getD 0 0 = 1 - 3 := by
  have h := C8_cost_derivative
    (NeuralNetwork.make [] (fun _ _ _ => 0) (fun _ _ => 0)) [1, 2] [3, 5] rfl
  exact ⟨h.1, h.2 0 (by norm_num)⟩

/-- C9: `feedforward` mutates no network state: the receiver returned by the
state-passing form of the method has exactly the same `weights`, `biases`,
`velocity_w` and `velocity_b` as before the call. -/
theorem C9_feedforward_frame (nn : NeuralNetwork) (a : Vec) :
    (nn.feedforwardM a).1.weights = nn.weights ∧
    (nn.feedforwardM a).1.biases = nn.biases ∧
    (nn.feedforwardM a).1.velocity_w = nn.velocity_w ∧
    (nn.feedforwardM a).1.velocity_b = nn.velocity_b :=
  ⟨rfl, rfl, rfl, rfl⟩

/-- C10: `train` shuffles the caller's `training_data` list in place: when
each per-epoch shuffle is a permutation (as `np.random.shuffle` is), the list
held by the caller after `train` returns is a permutation of the original
list. -/
theorem C10_train_shuffles_data_in_place (nn : NeuralNetwork)
    (data : List Sample) (epochs s : ℕ) (lr decay : ℝ)
    (shuffle : ℕ → List Sample → List Sample) (hs : 0 < s)
    (hperm : ∀ (j : ℕ) (l : List Sample), (shuffle j l).Perm l) :
    ∃ st' : TrainState,
      nn.train data epochs s lr decay shuffle = .ok st' ∧
      st'.data.Perm data := by
  obtain ⟨lg, h⟩ := trainLoop_ok shuffle data.length s decay hs.ne' epochs 0
    ⟨nn, data, lr, []⟩
  exact ⟨_, h, shuffleIter_perm shuffle hperm epochs 0 data⟩

/-- C10, witness at a concrete input. -/
theorem C10_witness :
    ∃ st' : TrainState,
      netXor.train xorData 2 4 (1 / 10) (9999 / 10000) (fun _ l => l) = .ok st' ∧
      st'.data.Perm xorData :=
  C10_train_shuffles_data_in_place netXor xorData 2 4 (1 / 10) (9999 / 10000)
    (fun _ l => l) (by norm_num) (fun _ l => List.Perm.refl l)

end GradientDescentNet
